import Mathlib

/-!
Verification of the freeze library (package freeze): a shallow embedding of
its memory-protection primitives (copyAndFreeze, mapFreeze), its entry points
(Pointer, Slice, Map, Object) and its recursive walker (object), together
with proofs of the specified properties.

Two complementary models are developed:

* a byte-level model (`BMem`) of mmap-allocated regions with per-byte
  protection, in which copyAndFreeze and mapFreeze are translated directly
  from the source (freeze.go), and
* a structured-value model (`Heap`/`Val`) of Go values and cells, in which
  the recursive walker `object` and the four entry points are translated
  from the source.

Writes to protected memory model the mprotect-induced fault: they return
`none` (byte level) or `Except.error Err.fault` (value level).  Panics from
input validation are recoverable and are modelled as `Err.panicMsg`; faults
are not recoverable.
-/

namespace Freeze

/-- Error outcomes of the model.  `panicMsg` is a Go panic raised by input
validation (catchable with recover); `fault` is an unrecoverable protection
fault (SIGSEGV from writing mprotect-ed memory or dereferencing nil);
`outOfFuel` is a model artifact for bounding recursion; `stuck` marks
type/value mismatches that cannot occur for well-typed Go values. -/
inductive Err where
  | panicMsg : String → Err
  | fault : Err
  | outOfFuel : Err
  | stuck : Err
deriving DecidableEq, Repr

/-- Whether an error can be caught by the caller with recover.  Only
validation panics are recoverable; protection faults are not. -/
def Err.recoverable : Err → Bool
  | .panicMsg _ => true
  | _ => false

/-! ## Byte-level model

A region is one mmap allocation.  `roFrom` records the result of mprotect
calls: byte indices `≥ roFrom` are read-only.  A fully writable region has
`roFrom = bytes.length`; a fully frozen one has `roFrom = 0`. -/

/-- One mmap-allocated region of memory: its bytes and the index from
which the bytes are protected read-only. -/
structure BReg where
  bytes : List Nat
  roFrom : Nat
deriving DecidableEq, Repr

/-- Byte-level memory: the list of allocated regions, in allocation order. -/
abbrev BMem := List BReg

/-- A pointer into byte-level memory: region index and byte offset. -/
structure BPtr where
  reg : Nat
  off : Nat
deriving DecidableEq, Repr

/-- Read one byte.  Reads never fault on protection; `none` means the
address is unmapped. -/
def readByteB (m : BMem) (p : BPtr) : Option Nat :=
  match m.get? p.reg with
  | none => none
  | some r => r.bytes.get? p.off

/-- Write one byte.  `none` models the unrecoverable fault raised by
writing an unmapped or read-only byte. -/
def writeByteB (m : BMem) (p : BPtr) (b : Nat) : Option BMem :=
  match m.get? p.reg with
  | none => none
  | some r =>
    if p.off < r.bytes.length then
      if p.off < r.roFrom then
        some (m.set p.reg ⟨r.bytes.set p.off b, r.roFrom⟩)
      else
        none
    else
      none

/-- Read `n` consecutive bytes starting at region `reg`, offset `off`. -/
def readBytesB (m : BMem) (reg : Nat) : Nat → Nat → Option (List Nat)
  | _, 0 => some []
  | off, n + 1 =>
    match readByteB m ⟨reg, off⟩ with
    | none => none
    | some b =>
      match readBytesB m reg (off + 1) n with
      | none => none
      | some bs => some (b :: bs)

/-- Translated from copyAndFreeze (freeze.go): copies `n` bytes from
`dataptr` into newly mmap-ed memory, mprotects it read-only, and returns a
pointer to the new memory; when `n = 0` it returns `dataptr` unchanged
without allocating.  `none` models the crash of copying from an invalid
source. -/
def copyAndFreezeB (m : BMem) (dataptr : BPtr) (n : Nat) : Option (BMem × BPtr) :=
  if n = 0 then
    some (m, dataptr)
  else
    match readBytesB m dataptr.reg dataptr.off n with
    | none => none
    | some bs => some (m ++ [⟨bs, 0⟩], ⟨m.length, 0⟩)

/-- Translated from mapFreeze (freeze.go): mmaps
`pageSize + (size - offset)` bytes, writes the `size`-byte hmap image
starting at `pageSize - offset` (so the count field, the first `offset`
bytes of the struct, ends the first page), mprotects the bytes from
`pageSize` onward read-only, and returns a pointer to the struct image. -/
def mapFreezeB (m : BMem) (dataptr : BPtr) (pageSize size offset : Nat) :
    Option (BMem × BPtr) :=
  match readBytesB m dataptr.reg dataptr.off size with
  | none => none
  | some bs =>
    some (m ++ [⟨List.replicate (pageSize - offset) 0 ++ bs, pageSize⟩],
          ⟨m.length, pageSize - offset⟩)

/-! ## Byte-level views of Go interface values

`BVal` is a byte-level view of the dynamic value held in an `interface` -/

/-- A byte-level Go interface value: nil interface, a pointer with its
pointee size, a slice header (data pointer, len, cap, element size), a map
(pointer to its hmap struct), or a value of any other kind. -/
inductive BVal where
  | bnil : BVal
  | bptr : BPtr → Nat → BVal
  | bslice : BPtr → Nat → Nat → Nat → BVal
  | bmapv : BPtr → BVal
  | bother : BVal
deriving DecidableEq, Repr

/-- Translated from Pointer (freeze.go): nil is returned unchanged,
non-pointer kinds panic, and otherwise the pointee's `size` bytes are
copied and frozen via copyAndFreeze and the data pointer is replaced. -/
def PointerB (m : BMem) (v : BVal) : Except Err BVal × BMem :=
  match v with
  | .bnil => (.ok v, m)
  | .bptr p size =>
    match copyAndFreezeB m p size with
    | none => (.error .fault, m)
    | some (m2, p2) => (.ok (.bptr p2 size), m2)
  | _ => (.error (.panicMsg "Pointer called on non-pointer type"), m)

/-- Translated from Slice (freeze.go): nil is returned unchanged,
non-slice kinds panic, and otherwise `elemSize * len` bytes of the backing
array are copied and frozen via copyAndFreeze and the slice's data pointer
is replaced; len and cap are not touched. -/
def SliceB (m : BMem) (v : BVal) : Except Err BVal × BMem :=
  match v with
  | .bnil => (.ok v, m)
  | .bslice data len cap elemSize =>
    match copyAndFreezeB m data (elemSize * len) with
    | none => (.error .fault, m)
    | some (m2, data2) => (.ok (.bslice data2 len cap elemSize), m2)
  | _ => (.error (.panicMsg "Slice called on non-slice type"), m)

/-- Translated from Map (freeze.go): nil is returned unchanged, non-map
kinds panic, and otherwise the interface's data pointer is replaced by
mapFreeze of the hmap struct.  `pageSize`, `size` and `offset` are the
runtime constants Getpagesize(), Sizeof(hmap) and Sizeof(int). -/
def MapB (pageSize size offset : Nat) (m : BMem) (v : BVal) :
    Except Err BVal × BMem :=
  match v with
  | .bnil => (.ok v, m)
  | .bmapv p =>
    match mapFreezeB m p pageSize size offset with
    | none => (.error .fault, m)
    | some (m2, p2) => (.ok (.bmapv p2), m2)
  | _ => (.error (.panicMsg "Map called on non-map type"), m)

/-- Modelled from the spec: the Go runtime's map mutation paths (insert,
delete, and overwrite of an existing key, even with the same value) are
not part of this repository.  Per spec section 4.2, every mutating map
operation writes at least one housekeeping or bucket-reference field of
the control structure, i.e. some byte at struct offset `fieldOff` with
`countSize ≤ fieldOff`; this definition is that write access applied to a
frozen map handle `p` (which addresses the struct image produced by
mapFreeze). -/
def mapMutateOp (m : BMem) (p : BPtr) (fieldOff b : Nat) : Option BMem :=
  writeByteB m ⟨p.reg, p.off + fieldOff⟩ b

/-- Modelled from the spec: the Go runtime's map read paths (lookup,
length, iteration) are not part of this repository.  Per spec sections 4.2
and 8, a read path reads control-structure fields (this definition, for
the struct byte at offset `i`) and performs bookkeeping writes only within
the count field (`mapBookkeepOp` below). -/
def mapReadOp (m : BMem) (p : BPtr) (i : Nat) : Option Nat :=
  readByteB m ⟨p.reg, p.off + i⟩

/-- Modelled from the spec: the count-field bookkeeping write performed by
the map read paths, at a byte offset `i` inside the count field
(`i < countSize`). -/
def mapBookkeepOp (m : BMem) (p : BPtr) (i b : Nat) : Option BMem :=
  writeByteB m ⟨p.reg, p.off + i⟩ b

/-! ## Structured-value model

Go types and values as seen by the reflect-driven walker `object`.
Pointers, slice backing arrays and hmap structs live in heap cells; a cell
carries the permission of the region that backs it. -/

/-- A Go type as classified by reflect.Kind in the source: scalar kinds
(with their byte size), pointer, fixed array, slice, map, and struct.
Struct fields carry a visibility flag: `true` models the source condition
that the walker may descend, i.e. not (PkgPath nonempty and not
Anonymous). -/
inductive Ty where
  | tint : Nat → Ty
  | tptr : Ty → Ty
  | tarr : Nat → Ty → Ty
  | tslice : Ty → Ty
  | tmap : Ty → Ty → Ty
  | tstruct : List (Bool × Ty) → Ty

/-- Translated from the hasPtrs helper in object (freeze.go): only
pointer, array, slice, map and struct kinds may contain pointers. -/
def hasPtrs : Ty → Bool
  | .tptr _ => true
  | .tarr _ _ => true
  | .tslice _ => true
  | .tmap _ _ => true
  | .tstruct _ => true
  | .tint _ => false

/-- Byte size of a type (reflect.Type.Size, without padding): used only
for the zero-size early return of copyAndFreeze. -/
def tySize : Ty → Nat
  | .tint sz => sz
  | .tptr _ => 8
  | .tarr n t => n * tySize t
  | .tslice _ => 24
  | .tmap _ _ => 8
  | .tstruct fs => go fs
where
  /-- Sum of the field sizes of a struct. -/
  go : List (Bool × Ty) → Nat
  | [] => 0
  | (_, t) :: fs => tySize t + go fs

/-- A structured Go value.  Pointers, slice data pointers, and map
headers hold heap-cell addresses; `ventries` is the content of an hmap
cell (its key/value entries, standing for count, buckets and the data
reachable from them). -/
inductive Val where
  | scalar : Nat → Val
  | vptr : Option Nat → Val
  | varr : List Val → Val
  | vslice : Option Nat → Nat → Nat → Val
  | vmap : Option Nat → Val
  | vstruct : List Val → Val
  | ventries : List (Val × Val) → Val

/-- Whether a region may be written (PROT_READ|PROT_WRITE) or is frozen
(PROT_READ). -/
inductive Perm where
  | rw : Perm
  | ro : Perm
deriving DecidableEq, Repr

/-- One heap cell: a separately allocated object (pointee, slice backing
array, or hmap struct) with the permission of its backing region. -/
structure Cell where
  val : Val
  perm : Perm

/-- The heap of allocated cells, in allocation order. -/
abbrev Heap := List Cell

/-- Read the value of a cell.  Reads never fault on protection; an
out-of-range address (a dangling or null dereference) faults. -/
def Heap.read (h : Heap) (a : Nat) : Except Err Val :=
  match h.get? a with
  | none => .error .fault
  | some c => .ok c.val

/-- Write a value into a cell.  Writing a read-only cell models the
mprotect fault, even when the written value equals the stored one. -/
def Heap.write (h : Heap) (a : Nat) (v : Val) : Except Err Heap :=
  match h.get? a with
  | none => .error .fault
  | some c =>
    match c.perm with
    | .ro => .error .fault
    | .rw => .ok (h.set a ⟨v, .rw⟩)

/-- Allocate a fresh cell (mmap); its address is the current heap length. -/
def Heap.alloc (h : Heap) (v : Val) (p : Perm) : Heap := h ++ [⟨v, p⟩]

/-- Translated from Pointer (freeze.go) as used on a pointer value:
copyAndFreeze of the pointee.  A zero-size pointee is returned unchanged
without allocating; otherwise the pointee is copied into a fresh read-only
cell and the pointer is redirected to it.  A nil data pointer with nonzero
size faults (copy from address 0). -/
def freezePtrW (te : Ty) (ma : Option Nat) (h : Heap) : Except Err (Val × Heap) :=
  if tySize te = 0 then
    .ok (.vptr ma, h)
  else
    match ma with
    | none => .error .fault
    | some a =>
      match h.read a with
      | .error e => .error e
      | .ok pv => .ok (.vptr (some h.length), h.alloc pv .ro)

/-- Translated from Slice (freeze.go) as used on a slice value:
copyAndFreeze of `elemSize * len` bytes of the backing array.  When that
size is zero the slice is returned unchanged without allocating; otherwise
the first `len` elements are copied into a fresh read-only backing cell
and the data pointer is redirected; len and cap are unchanged. -/
def freezeSliceW (te : Ty) (d : Option Nat) (len cap : Nat) (h : Heap) :
    Except Err (Val × Heap) :=
  if tySize te * len = 0 then
    .ok (.vslice d len cap, h)
  else
    match d with
    | none => .error .fault
    | some a =>
      match h.read a with
      | .error e => .error e
      | .ok (.varr es) =>
        if len ≤ es.length then
          .ok (.vslice (some h.length) len cap, h.alloc (.varr (es.take len)) .ro)
        else
          .error .stuck
      | .ok _ => .error .stuck

/-- Translated from Map/mapFreeze (freeze.go) as used on a map value: the
hmap struct is copied into a fresh split region and the map header is
redirected to the copy.  The split region is modelled as one cell; its
permission is `ro` (its housekeeping fields are frozen; the byte-level
model carries the exact split).  There is no empty-map early return.  A
nil map header faults (copy from address 0). -/
def mapFreezeW (ma : Option Nat) (h : Heap) : Except Err (Val × Heap) :=
  match ma with
  | none => .error .fault
  | some a =>
    match h.read a with
    | .error e => .error e
    | .ok mv => .ok (.vmap (some h.length), h.alloc mv .ro)

/-- Read the key/value entries of a map value (reflect MapKeys/MapIndex);
a nil map has no entries. -/
def readEntries (h : Heap) (ma : Option Nat) : Except Err (List (Val × Val)) :=
  match ma with
  | none => .ok []
  | some a =>
    match h.read a with
    | .error e => .error e
    | .ok (.ventries es) => .ok es
    | .ok _ => .error .stuck

/-- Recurse with `f` into every element of a list (the element loops of
the array and slice cases of object), threading the heap. -/
def objList (f : Ty → Val → Heap → Except Err (Val × Heap)) (te : Ty) :
    List Val → Heap → Except Err (List Val × Heap)
  | [], h => .ok ([], h)
  | v :: vs, h =>
    match f te v h with
    | .error e => .error e
    | .ok (v1, h1) =>
      match objList f te vs h1 with
      | .error e => .error e
      | .ok (vs1, h2) => .ok (v1 :: vs1, h2)

/-- Recurse with `f` into every key and value of a map's entries (the
rebuild loop of the map case of object), threading the heap. -/
def objPairs (f : Ty → Val → Heap → Except Err (Val × Heap)) (tk te : Ty) :
    List (Val × Val) → Heap → Except Err (List (Val × Val) × Heap)
  | [], h => .ok ([], h)
  | (k, v) :: ps, h =>
    match f tk k h with
    | .error e => .error e
    | .ok (k1, h1) =>
      match f te v h1 with
      | .error e => .error e
      | .ok (v1, h2) =>
        match objPairs f tk te ps h2 with
        | .error e => .error e
        | .ok (ps1, h3) => .ok ((k1, v1) :: ps1, h3)

/-- Translated from the struct case of object (freeze.go): recurse with
`f` into each field whose visibility flag allows descent and whose type
may contain pointers; other fields are left untouched. -/
def objFields (f : Ty → Val → Heap → Except Err (Val × Heap)) :
    List (Bool × Ty) → List Val → Heap → Except Err (List Val × Heap)
  | _, [], h => .ok ([], h)
  | [], vs, h => .ok (vs, h)
  | (ex, ft) :: fts, fv :: vs, h =>
    if ex && hasPtrs ft then
      match f ft fv h with
      | .error e => .error e
      | .ok (fv1, h1) =>
        match objFields f fts vs h1 with
        | .error e => .error e
        | .ok (vs1, h2) => .ok (fv1 :: vs1, h2)
    else
      match objFields f fts vs h with
      | .error e => .error e
      | .ok (vs1, h2) => .ok (fv :: vs1, h2)

/-- Translated from object (freeze.go), the recursive walker: updates all
pointers in the value to point to frozen memory containing the same data.
Scalar kinds fall through the default case unchanged.  The pointer case
returns nil unchanged, recurses into the pointee only when its type may
contain pointers (writing the result back through the pointer, which
faults if the pointee cell is frozen), then freezes via Pointer.  The
array and slice cases recurse into the elements only when the element type
may contain pointers (the slice writing its updated elements back into the
backing array), the slice then freezing its backing data via Slice.  The
map case rebuilds the map with recursively frozen keys and values when
either may contain pointers, then freezes the hmap via Map.  The struct
case recurses per field as in objFields.  `fuel` bounds the recursion
depth (the source recurses unboundedly and documents infinite recursion on
cyclic input). -/
def objectF : Nat → Ty → Val → Heap → Except Err (Val × Heap)
  | 0, _, _, _ => .error .outOfFuel
  | _ + 1, .tint _, v, h => .ok (v, h)
  | _ + 1, .tptr _, .vptr none, h => .ok (.vptr none, h)
  | n + 1, .tptr te, .vptr (some a), h =>
    if hasPtrs te then
      match h.read a with
      | .error e => .error e
      | .ok pv =>
        match objectF n te pv h with
        | .error e => .error e
        | .ok (pv1, h1) =>
          match h1.write a pv1 with
          | .error e => .error e
          | .ok h2 => freezePtrW te (some a) h2
    else
      freezePtrW te (some a) h
  | _ + 1, .tptr _, _, _ => .error .stuck
  | n + 1, .tarr _ te, .varr vs, h =>
    if hasPtrs te then
      match objList (objectF n) te vs h with
      | .error e => .error e
      | .ok (vs1, h1) => .ok (.varr vs1, h1)
    else
      .ok (.varr vs, h)
  | _ + 1, .tarr _ _, _, _ => .error .stuck
  | _ + 1, .tslice te, .vslice none len cap, h =>
    if hasPtrs te && len != 0 then .error .stuck
    else freezeSliceW te none len cap h
  | n + 1, .tslice te, .vslice (some a) len cap, h =>
    if hasPtrs te && len != 0 then
      match h.read a with
      | .error e => .error e
      | .ok (.varr es) =>
        match objList (objectF n) te (es.take len) h with
        | .error e => .error e
        | .ok (es1, h1) =>
          match h1.write a (.varr (es1 ++ es.drop len)) with
          | .error e => .error e
          | .ok h2 => freezeSliceW te (some a) len cap h2
      | .ok _ => .error .stuck
    else
      freezeSliceW te (some a) len cap h
  | _ + 1, .tslice _, _, _ => .error .stuck
  | n + 1, .tmap tk te, .vmap ma, h =>
    if hasPtrs te || hasPtrs tk then
      match readEntries h ma with
      | .error e => .error e
      | .ok es =>
        match objPairs (objectF n) tk te es h with
        | .error e => .error e
        | .ok (es1, h1) => mapFreezeW (some h1.length) (h1.alloc (.ventries es1) .rw)
    else
      mapFreezeW ma h
  | _ + 1, .tmap _ _, _, _ => .error .stuck
  | n + 1, .tstruct fts, .vstruct vs, h =>
    match objFields (objectF n) fts vs h with
    | .error e => .error e
    | .ok (vs1, h1) => .ok (.vstruct vs1, h1)
  | _ + 1, .tstruct _, _, _ => .error .stuck

/-- Like objFields, but following the spec's description of a naive
walker for the refinement comparison: descend into every field whose
visibility flag allows it, even when its type cannot contain pointers. -/
def objFieldsNaive (f : Ty → Val → Heap → Except Err (Val × Heap)) :
    List (Bool × Ty) → List Val → Heap → Except Err (List Val × Heap)
  | _, [], h => .ok ([], h)
  | [], vs, h => .ok (vs, h)
  | (ex, ft) :: fts, fv :: vs, h =>
    if ex then
      match f ft fv h with
      | .error e => .error e
      | .ok (fv1, h1) =>
        match objFieldsNaive f fts vs h1 with
        | .error e => .error e
        | .ok (vs1, h2) => .ok (fv1 :: vs1, h2)
    else
      match objFieldsNaive f fts vs h with
      | .error e => .error e
      | .ok (vs1, h2) => .ok (fv :: vs1, h2)

/-- The naive walker the spec compares against: identical to objectF
except that it always recurses into pointees, array and slice elements,
and visible struct fields, without the hasPtrs shortcut that skips
scalar-shaped children.  (The map rebuild condition is a copy-on-write
decision, not a recursion-into-storage site, and is kept as in the
source.)  Stated from the spec for the refinement claim that the shortcut
is a pure optimization. -/
def objectNaive : Nat → Ty → Val → Heap → Except Err (Val × Heap)
  | 0, _, _, _ => .error .outOfFuel
  | _ + 1, .tint _, v, h => .ok (v, h)
  | _ + 1, .tptr _, .vptr none, h => .ok (.vptr none, h)
  | n + 1, .tptr te, .vptr (some a), h =>
    match h.read a with
    | .error e => .error e
    | .ok pv =>
      match objectNaive n te pv h with
      | .error e => .error e
      | .ok (pv1, h1) =>
        match h1.write a pv1 with
        | .error e => .error e
        | .ok h2 => freezePtrW te (some a) h2
  | _ + 1, .tptr _, _, _ => .error .stuck
  | n + 1, .tarr _ te, .varr vs, h =>
    match objList (objectNaive n) te vs h with
    | .error e => .error e
    | .ok (vs1, h1) => .ok (.varr vs1, h1)
  | _ + 1, .tarr _ _, _, _ => .error .stuck
  | _ + 1, .tslice te, .vslice none len cap, h =>
    if len != 0 then .error .stuck
    else freezeSliceW te none len cap h
  | n + 1, .tslice te, .vslice (some a) len cap, h =>
    if len != 0 then
      match h.read a with
      | .error e => .error e
      | .ok (.varr es) =>
        match objList (objectNaive n) te (es.take len) h with
        | .error e => .error e
        | .ok (es1, h1) =>
          match h1.write a (.varr (es1 ++ es.drop len)) with
          | .error e => .error e
          | .ok h2 => freezeSliceW te (some a) len cap h2
      | .ok _ => .error .stuck
    else
      freezeSliceW te (some a) len cap h
  | _ + 1, .tslice _, _, _ => .error .stuck
  | n + 1, .tmap tk te, .vmap ma, h =>
    if hasPtrs te || hasPtrs tk then
      match readEntries h ma with
      | .error e => .error e
      | .ok es =>
        match objPairs (objectNaive n) tk te es h with
        | .error e => .error e
        | .ok (es1, h1) => mapFreezeW (some h1.length) (h1.alloc (.ventries es1) .rw)
    else
      mapFreezeW ma h
  | _ + 1, .tmap _ _, _, _ => .error .stuck
  | n + 1, .tstruct fts, .vstruct vs, h =>
    match objFieldsNaive (objectNaive n) fts vs h with
    | .error e => .error e
    | .ok (vs1, h1) => .ok (.vstruct vs1, h1)
  | _ + 1, .tstruct _, _, _ => .error .stuck

/-- A Go interface value handed to an entry point: the nil interface, or
a typed value. -/
inductive GoVal where
  | gnil : GoVal
  | gval : Ty → Val → GoVal

/-- Translated from Object (freeze.go): nil is returned unchanged; roots
of pointer, slice or map kind are walked by object; any other root kind
panics before any allocation.  On an internal error the heap at entry is
reported (the process dies there). -/
def ObjectW (fuel : Nat) (h : Heap) (g : GoVal) : Except Err GoVal × Heap :=
  match g with
  | .gnil => (.ok g, h)
  | .gval t v =>
    match t with
    | .tptr _ | .tslice _ | .tmap _ _ =>
      match objectF fuel t v h with
      | .error e => (.error e, h)
      | .ok (v1, h1) => (.ok (.gval t v1), h1)
    | _ => (.error (.panicMsg "Object called on invalid type"), h)

/-! ## Helper lemmas -/

theorem set_get_self {α : Type} :
    ∀ (l : List α) (i : Nat) (x : α), l.get? i = some x → l.set i x = l
  | [], _, _, h => by cases h
  | a :: l, 0, x, h => by
    simp only [List.get?] at h
    cases h
    rfl
  | a :: l, i + 1, x, h => by
    simp only [List.get?] at h
    simp only [List.set]
    rw [set_get_self l i x h]

theorem readBytesB_length (m : BMem) (reg : Nat) :
    ∀ n off bs, readBytesB m reg off n = some bs → bs.length = n := by
  intro n
  induction n with
  | zero =>
    intro off bs hr
    simp only [readBytesB] at hr
    cases hr
    rfl
  | succ k ih =>
    intro off bs hr
    simp only [readBytesB] at hr
    cases e1 : readByteB m ⟨reg, off⟩ with
    | none => rw [e1] at hr; cases hr
    | some b =>
      rw [e1] at hr
      cases e2 : readBytesB m reg (off + 1) k with
      | none => rw [e2] at hr; cases hr
      | some tl =>
        rw [e2] at hr
        cases hr
        simp [ih (off + 1) tl e2]

theorem readBytesB_get (m : BMem) (reg : Nat) :
    ∀ n off bs, readBytesB m reg off n = some bs →
      ∀ i, i < n → readByteB m ⟨reg, off + i⟩ = bs.get? i := by
  intro n
  induction n with
  | zero =>
    intro off bs _ i hi
    exact absurd hi (Nat.not_lt_zero i)
  | succ k ih =>
    intro off bs hr i hi
    simp only [readBytesB] at hr
    cases e1 : readByteB m ⟨reg, off⟩ with
    | none => rw [e1] at hr; cases hr
    | some b =>
      rw [e1] at hr
      cases e2 : readBytesB m reg (off + 1) k with
      | none => rw [e2] at hr; cases hr
      | some tl =>
        rw [e2] at hr
        cases hr
        cases i with
        | zero => simpa using e1
        | succ j =>
          have h2 := ih (off + 1) tl e2 j (Nat.lt_of_succ_lt_succ hi)
          have h3 : off + (j + 1) = off + 1 + j := by omega
          rw [h3]
          simpa using h2

theorem readByteB_append_new (m : BMem) (r : BReg) (i : Nat) :
    readByteB (m ++ [r]) ⟨m.length, i⟩ = r.bytes.get? i := by
  simp [readByteB]

theorem readByteB_append_old (m : BMem) (r : BReg) (p : BPtr)
    (hp : p.reg < m.length) : readByteB (m ++ [r]) p = readByteB m p := by
  simp only [readByteB, List.get?_eq_getElem?]
  rw [List.getElem?_append_left hp]

theorem writeByteB_append_at (m : BMem) (r : BReg) (i b : Nat) :
    writeByteB (m ++ [r]) ⟨m.length, i⟩ b =
      if i < r.bytes.length then
        if i < r.roFrom then
          some ((m ++ [r]).set m.length ⟨r.bytes.set i b, r.roFrom⟩)
        else none
      else none := by
  simp [writeByteB]

/-- C1: for a non-nil pointer whose pointee has nonzero size, Pointer
returns a handle into a newly allocated, fully read-only region holding an
exact copy of the pointee's bytes at freeze time: reading any copied byte
through the handle yields the corresponding source byte, and every write
through the handle faults. -/
theorem pointer_freezes_exact_copy (m : BMem) (p : BPtr) (n : Nat)
    (bs : List Nat) (hn : 0 < n)
    (hread : readBytesB m p.reg p.off n = some bs) :
    PointerB m (.bptr p n) =
      (.ok (.bptr ⟨m.length, 0⟩ n), m ++ [⟨bs, 0⟩]) ∧
    (∀ i, i < n →
      readByteB (m ++ [⟨bs, 0⟩]) ⟨m.length, i⟩ = readByteB m ⟨p.reg, p.off + i⟩) ∧
    (∀ i b, writeByteB (m ++ [⟨bs, 0⟩]) ⟨m.length, i⟩ b = none) := by
  refine ⟨?_, ?_, ?_⟩
  · simp [PointerB, copyAndFreezeB, Nat.pos_iff_ne_zero.mp hn, hread]
  · intro i hi
    rw [readByteB_append_new, readBytesB_get m p.reg n p.off bs hread i hi]
  · intro i b
    rw [writeByteB_append_at]
    simp

/-- Closed witness for C1 at a concrete memory and pointer. -/
theorem pointer_freezes_exact_copy_witness :
    (0 < 4 ∧ readBytesB [⟨[1, 2, 3, 4], 4⟩] 0 0 4 = some [1, 2, 3, 4]) ∧
    PointerB [⟨[1, 2, 3, 4], 4⟩] (.bptr ⟨0, 0⟩ 4) =
      (.ok (.bptr ⟨1, 0⟩ 4), [⟨[1, 2, 3, 4], 4⟩, ⟨[1, 2, 3, 4], 0⟩]) ∧
    writeByteB [⟨[1, 2, 3, 4], 4⟩, ⟨[1, 2, 3, 4], 0⟩] ⟨1, 2⟩ 9 = none := by
  refine ⟨⟨by decide, rfl⟩, ?_, ?_⟩
  · exact (pointer_freezes_exact_copy [⟨[1, 2, 3, 4], 4⟩] ⟨0, 0⟩ 4
      [1, 2, 3, 4] (by decide) rfl).1
  · exact (pointer_freezes_exact_copy [⟨[1, 2, 3, 4], 4⟩] ⟨0, 0⟩ 4
      [1, 2, 3, 4] (by decide) rfl).2.2 2 9

/-- C10: Slice replaces only the slice header's data pointer: length and
capacity are returned unchanged, exactly elemSize * len bytes are copied
into the newly allocated region, every byte of that region is read-only,
each copied byte reads back as the corresponding source byte, and the
region holds no byte at or beyond offset elemSize * len, so spare capacity
refers to memory beyond the copied bytes rather than to a writable copy of
the original spare capacity. -/
theorem slice_replaces_only_data (m : BMem) (data : BPtr)
    (len cap elemSize : Nat) (bs : List Nat) (hn : 0 < elemSize * len)
    (hread : readBytesB m data.reg data.off (elemSize * len) = some bs) :
    SliceB m (.bslice data len cap elemSize) =
      (.ok (.bslice ⟨m.length, 0⟩ len cap elemSize), m ++ [⟨bs, 0⟩]) ∧
    bs.length = elemSize * len ∧
    (∀ i, i < elemSize * len →
      readByteB (m ++ [⟨bs, 0⟩]) ⟨m.length, i⟩ =
        readByteB m ⟨data.reg, data.off + i⟩) ∧
    (∀ i b, writeByteB (m ++ [⟨bs, 0⟩]) ⟨m.length, i⟩ b = none) ∧
    (∀ i, elemSize * len ≤ i →
      readByteB (m ++ [⟨bs, 0⟩]) ⟨m.length, i⟩ = none) := by
  have hlen := readBytesB_length m data.reg (elemSize * len) data.off bs hread
  refine ⟨?_, hlen, ?_, ?_, ?_⟩
  · simp [SliceB, copyAndFreezeB, Nat.pos_iff_ne_zero.mp hn, hread]
  · intro i hi
    rw [readByteB_append_new,
      readBytesB_get m data.reg (elemSize * len) data.off bs hread i hi]
  · intro i b
    rw [writeByteB_append_at]
    simp
  · intro i hi
    rw [readByteB_append_new]
    dsimp only
    exact List.get?_eq_none.mpr (by omega)

/-- Closed witness for C10: a 4-byte backing array, element size 1,
length 2, capacity 4. -/
theorem slice_replaces_only_data_witness :
    (0 < 1 * 2 ∧ readBytesB [⟨[5, 6, 7, 8], 4⟩] 0 0 (1 * 2) = some [5, 6]) ∧
    SliceB [⟨[5, 6, 7, 8], 4⟩] (.bslice ⟨0, 0⟩ 2 4 1) =
      (.ok (.bslice ⟨1, 0⟩ 2 4 1), [⟨[5, 6, 7, 8], 4⟩, ⟨[5, 6], 0⟩]) ∧
    writeByteB [⟨[5, 6, 7, 8], 4⟩, ⟨[5, 6], 0⟩] ⟨1, 0⟩ 9 = none ∧
    readByteB [⟨[5, 6, 7, 8], 4⟩, ⟨[5, 6], 0⟩] ⟨1, 2⟩ = none := by
  refine ⟨⟨by decide, rfl⟩, ?_, ?_, ?_⟩
  · exact (slice_replaces_only_data [⟨[5, 6, 7, 8], 4⟩] ⟨0, 0⟩ 2 4 1
      [5, 6] (by decide) rfl).1
  · exact (slice_replaces_only_data [⟨[5, 6, 7, 8], 4⟩] ⟨0, 0⟩ 2 4 1
      [5, 6] (by decide) rfl).2.2.2.1 0 9
  · exact (slice_replaces_only_data [⟨[5, 6, 7, 8], 4⟩] ⟨0, 0⟩ 2 4 1
      [5, 6] (by decide) rfl).2.2.2.2 2 (by decide)

theorem mapFreezeB_spec (m : BMem) (p : BPtr) (ps sz off : Nat)
    (bs : List Nat) (h2 : off ≤ ps) (h3 : off ≤ sz)
    (hread : readBytesB m p.reg p.off sz = some bs) :
    mapFreezeB m p ps sz off =
      some (m ++ [⟨List.replicate (ps - off) 0 ++ bs, ps⟩], ⟨m.length, ps - off⟩) ∧
    (List.replicate (ps - off) 0 ++ bs).length = ps + (sz - off) ∧
    (∀ i, i < sz →
      readByteB (m ++ [⟨List.replicate (ps - off) 0 ++ bs, ps⟩])
          ⟨m.length, ps - off + i⟩ =
        readByteB m ⟨p.reg, p.off + i⟩) ∧
    (∀ j b, j < ps + (sz - off) → j < ps →
      (writeByteB (m ++ [⟨List.replicate (ps - off) 0 ++ bs, ps⟩])
        ⟨m.length, j⟩ b).isSome) ∧
    (∀ j b, ps ≤ j →
      writeByteB (m ++ [⟨List.replicate (ps - off) 0 ++ bs, ps⟩])
        ⟨m.length, j⟩ b = none) ∧
    (∀ q, q.reg < m.length →
      readByteB (m ++ [⟨List.replicate (ps - off) 0 ++ bs, ps⟩]) q =
        readByteB m q) := by
  have hlen := readBytesB_length m p.reg sz p.off bs hread
  have hrl : (List.replicate (ps - off) 0 ++ bs).length = ps + (sz - off) := by
    simp [hlen]
    omega
  refine ⟨?_, hrl, ?_, ?_, ?_, ?_⟩
  · simp [mapFreezeB, hread]
  · intro i hi
    rw [readByteB_append_new]
    have hrep : (List.replicate (ps - off) (0 : Nat)).length = ps - off := by simp
    rw [List.get?_eq_getElem?, List.getElem?_append_right (by omega)]
    rw [readBytesB_get m p.reg sz p.off bs hread i hi]
    simp [hrep]
  · intro j b hj1 hj2
    rw [writeByteB_append_at]
    simp only [hrl]
    rw [if_pos hj1, if_pos hj2]
    rfl
  · intro j b hj
    rw [writeByteB_append_at]
    dsimp only
    split
    · rw [if_neg (by omega)]
    · rfl
  · intro q hq
    exact readByteB_append_old m _ q hq

/-- C3: mapFreeze allocates exactly pageSize + (hmapSize - countSize)
bytes, writes the hmap image starting at offset pageSize - countSize,
makes read-only exactly the bytes from offset pageSize to the end, and
consequently the count field (struct offsets below countSize) stays
writable while every other struct field (offsets from countSize up) is
read-only. -/
theorem mapFreeze_split_layout (m : BMem) (p : BPtr) (ps sz off : Nat)
    (bs : List Nat) (h2 : off ≤ ps) (h3 : off ≤ sz)
    (hread : readBytesB m p.reg p.off sz = some bs) :
    mapFreezeB m p ps sz off =
      some (m ++ [⟨List.replicate (ps - off) 0 ++ bs, ps⟩], ⟨m.length, ps - off⟩) ∧
    (List.replicate (ps - off) 0 ++ bs).length = ps + (sz - off) ∧
    (∀ i, i < sz →
      readByteB (m ++ [⟨List.replicate (ps - off) 0 ++ bs, ps⟩])
          ⟨m.length, ps - off + i⟩ =
        readByteB m ⟨p.reg, p.off + i⟩) ∧
    (∀ j b, j < ps + (sz - off) → j < ps →
      (writeByteB (m ++ [⟨List.replicate (ps - off) 0 ++ bs, ps⟩])
        ⟨m.length, j⟩ b).isSome) ∧
    (∀ j b, ps ≤ j →
      writeByteB (m ++ [⟨List.replicate (ps - off) 0 ++ bs, ps⟩])
        ⟨m.length, j⟩ b = none) ∧
    (∀ i b, i < off →
      (writeByteB (m ++ [⟨List.replicate (ps - off) 0 ++ bs, ps⟩])
        ⟨m.length, ps - off + i⟩ b).isSome) ∧
    (∀ i b, off ≤ i → i < sz →
      writeByteB (m ++ [⟨List.replicate (ps - off) 0 ++ bs, ps⟩])
        ⟨m.length, ps - off + i⟩ b = none) := by
  obtain ⟨he, hl, hr, hw, hro, hold⟩ := mapFreezeB_spec m p ps sz off bs h2 h3 hread
  refine ⟨he, hl, hr, hw, hro, ?_, ?_⟩
  · intro i b hi
    exact hw (ps - off + i) b (by omega) (by omega)
  · intro i b hi1 _
    exact hro (ps - off + i) b (by omega)

/-- Closed witness for C3: page size 16, hmap size 12, count size 8. -/
theorem mapFreeze_split_layout_witness :
    (8 ≤ 16 ∧ 8 ≤ 12 ∧
      readBytesB [⟨[1, 2, 3, 4, 5, 6, 7, 8, 9, 10, 11, 12], 12⟩] 0 0 12 =
        some [1, 2, 3, 4, 5, 6, 7, 8, 9, 10, 11, 12]) ∧
    mapFreezeB [⟨[1, 2, 3, 4, 5, 6, 7, 8, 9, 10, 11, 12], 12⟩] ⟨0, 0⟩ 16 12 8 =
      some ([⟨[1, 2, 3, 4, 5, 6, 7, 8, 9, 10, 11, 12], 12⟩,
             ⟨[0, 0, 0, 0, 0, 0, 0, 0, 1, 2, 3, 4, 5, 6, 7, 8, 9, 10, 11, 12], 16⟩],
            ⟨1, 8⟩) ∧
    (writeByteB [⟨[1, 2, 3, 4, 5, 6, 7, 8, 9, 10, 11, 12], 12⟩,
       ⟨[0, 0, 0, 0, 0, 0, 0, 0, 1, 2, 3, 4, 5, 6, 7, 8, 9, 10, 11, 12], 16⟩]
       ⟨1, 8 + 0⟩ 9).isSome ∧
    writeByteB [⟨[1, 2, 3, 4, 5, 6, 7, 8, 9, 10, 11, 12], 12⟩,
       ⟨[0, 0, 0, 0, 0, 0, 0, 0, 1, 2, 3, 4, 5, 6, 7, 8, 9, 10, 11, 12], 16⟩]
       ⟨1, 8 + 8⟩ 9 = none := by
  refine ⟨⟨by decide, by decide, rfl⟩, ?_, ?_, ?_⟩
  · have := (mapFreeze_split_layout
      [⟨[1, 2, 3, 4, 5, 6, 7, 8, 9, 10, 11, 12], 12⟩] ⟨0, 0⟩ 16 12 8
      [1, 2, 3, 4, 5, 6, 7, 8, 9, 10, 11, 12] (by decide) (by decide) rfl).1
    simpa using this
  · have := (mapFreeze_split_layout
      [⟨[1, 2, 3, 4, 5, 6, 7, 8, 9, 10, 11, 12], 12⟩] ⟨0, 0⟩ 16 12 8
      [1, 2, 3, 4, 5, 6, 7, 8, 9, 10, 11, 12] (by decide) (by decide)
      rfl).2.2.2.2.2.1 0 9 (by decide)
    simpa using this
  · have := (mapFreeze_split_layout
      [⟨[1, 2, 3, 4, 5, 6, 7, 8, 9, 10, 11, 12], 12⟩] ⟨0, 0⟩ 16 12 8
      [1, 2, 3, 4, 5, 6, 7, 8, 9, 10, 11, 12] (by decide) (by decide)
      rfl).2.2.2.2.2.2 8 9 (by decide) (by decide)
    simpa using this

/-- C4 counterexample: after mapFreeze (page size 16, hmap size 12, count
size 8), the count field is NOT the sub-range that becomes read-only and
the housekeeping fields do NOT remain writable: writing a count byte
(struct offset 0) succeeds, while writing a housekeeping byte (struct
offset 8, the first field after count) faults.  This refutes the claim
that count is frozen while the mutable housekeeping fields stay
writable. -/
theorem map_split_count_frozen_counterexample :
    (writeByteB [⟨[1, 2, 3, 4, 5, 6, 7, 8, 9, 10, 11, 12], 12⟩,
       ⟨[0, 0, 0, 0, 0, 0, 0, 0, 1, 2, 3, 4, 5, 6, 7, 8, 9, 10, 11, 12], 16⟩]
       ⟨1, 8⟩ 9).isSome ∧
    writeByteB [⟨[1, 2, 3, 4, 5, 6, 7, 8, 9, 10, 11, 12], 12⟩,
       ⟨[0, 0, 0, 0, 0, 0, 0, 0, 1, 2, 3, 4, 5, 6, 7, 8, 9, 10, 11, 12], 16⟩]
       ⟨1, 16⟩ 9 = none ∧
    mapFreezeB [⟨[1, 2, 3, 4, 5, 6, 7, 8, 9, 10, 11, 12], 12⟩] ⟨0, 0⟩ 16 12 8 =
      some ([⟨[1, 2, 3, 4, 5, 6, 7, 8, 9, 10, 11, 12], 12⟩,
             ⟨[0, 0, 0, 0, 0, 0, 0, 0, 1, 2, 3, 4, 5, 6, 7, 8, 9, 10, 11, 12], 16⟩],
            ⟨1, 8⟩) := by
  refine ⟨by decide, by decide, rfl⟩

/-- C4 amended: after the split-region freezer runs, the element count
field (the struct's prefix of countSize bytes) is exactly the part that
remains writable, while the housekeeping fields (every struct byte from
offset countSize on) become read-only. -/
theorem mapFreeze_count_stays_writable (m : BMem) (p : BPtr)
    (ps sz off : Nat) (bs : List Nat) (h2 : off ≤ ps) (h3 : off ≤ sz)
    (hread : readBytesB m p.reg p.off sz = some bs) :
    (∀ i b, i < off →
      (writeByteB (m ++ [⟨List.replicate (ps - off) 0 ++ bs, ps⟩])
        ⟨m.length, ps - off + i⟩ b).isSome) ∧
    (∀ i b, off ≤ i → i < sz →
      writeByteB (m ++ [⟨List.replicate (ps - off) 0 ++ bs, ps⟩])
        ⟨m.length, ps - off + i⟩ b = none) := by
  obtain ⟨-, -, -, -, -, hcw, hfr⟩ :=
    mapFreeze_split_layout m p ps sz off bs h2 h3 hread
  exact ⟨hcw, hfr⟩

/-- Closed witness for the amended C4. -/
theorem mapFreeze_count_stays_writable_witness :
    (8 ≤ 16 ∧ 8 ≤ 12 ∧
      readBytesB [⟨[1, 2, 3, 4, 5, 6, 7, 8, 9, 10, 11, 12], 12⟩] 0 0 12 =
        some [1, 2, 3, 4, 5, 6, 7, 8, 9, 10, 11, 12]) ∧
    (writeByteB [⟨[1, 2, 3, 4, 5, 6, 7, 8, 9, 10, 11, 12], 12⟩,
       ⟨[0, 0, 0, 0, 0, 0, 0, 0, 1, 2, 3, 4, 5, 6, 7, 8, 9, 10, 11, 12], 16⟩]
       ⟨1, 8 + 3⟩ 9).isSome ∧
    writeByteB [⟨[1, 2, 3, 4, 5, 6, 7, 8, 9, 10, 11, 12], 12⟩,
       ⟨[0, 0, 0, 0, 0, 0, 0, 0, 1, 2, 3, 4, 5, 6, 7, 8, 9, 10, 11, 12], 16⟩]
       ⟨1, 8 + 9⟩ 9 = none := by
  refine ⟨⟨by decide, by decide, rfl⟩, ?_, ?_⟩
  · have := (mapFreeze_count_stays_writable
      [⟨[1, 2, 3, 4, 5, 6, 7, 8, 9, 10, 11, 12], 12⟩] ⟨0, 0⟩ 16 12 8
      [1, 2, 3, 4, 5, 6, 7, 8, 9, 10, 11, 12] (by decide) (by decide)
      rfl).1 3 9 (by decide)
    simpa using this
  · have := (mapFreeze_count_stays_writable
      [⟨[1, 2, 3, 4, 5, 6, 7, 8, 9, 10, 11, 12], 12⟩] ⟨0, 0⟩ 16 12 8
      [1, 2, 3, 4, 5, 6, 7, 8, 9, 10, 11, 12] (by decide) (by decide)
      rfl).2 9 9 (by decide) (by decide)
    simpa using this

/-- C2: after Map freezes a map, every mutating operation (insert,
delete, overwrite of an existing key even with the same value: per the
spec they all write some housekeeping or bucket-reference field, at a
struct offset in [countSize, hmapSize)) faults, while the read paths
(lookup, length, iteration) succeed: every struct byte reads back as its
freeze-time value, the count-field bookkeeping writes of the read paths
succeed, and all previously allocated regions (the bucket data holding
the key/value set) are unchanged, so reads observe exactly the original
key/value set. -/
theorem map_freeze_mutate_faults_reads_succeed (m : BMem) (p : BPtr)
    (ps sz off : Nat) (bs : List Nat) (h2 : off ≤ ps) (h3 : off ≤ sz)
    (hread : readBytesB m p.reg p.off sz = some bs) :
    (∀ fo b, off ≤ fo → fo < sz →
      mapMutateOp (m ++ [⟨List.replicate (ps - off) 0 ++ bs, ps⟩])
        ⟨m.length, ps - off⟩ fo b = none) ∧
    (∀ i, i < sz →
      mapReadOp (m ++ [⟨List.replicate (ps - off) 0 ++ bs, ps⟩])
        ⟨m.length, ps - off⟩ i = readByteB m ⟨p.reg, p.off + i⟩) ∧
    (∀ i b, i < off →
      (mapBookkeepOp (m ++ [⟨List.replicate (ps - off) 0 ++ bs, ps⟩])
        ⟨m.length, ps - off⟩ i b).isSome) ∧
    (∀ q, q.reg < m.length →
      readByteB (m ++ [⟨List.replicate (ps - off) 0 ++ bs, ps⟩]) q =
        readByteB m q) := by
  obtain ⟨-, -, hr, -, -, hold⟩ := mapFreezeB_spec m p ps sz off bs h2 h3 hread
  obtain ⟨hcw, hfr⟩ := mapFreeze_count_stays_writable m p ps sz off bs h2 h3 hread
  exact ⟨fun fo b hfo1 hfo2 => hfr fo b hfo1 hfo2,
         fun i hi => hr i hi,
         fun i b hi => hcw i b hi,
         hold⟩

/-- Closed witness for C2. -/
theorem map_freeze_mutate_faults_reads_succeed_witness :
    (8 ≤ 16 ∧ 8 ≤ 12 ∧
      readBytesB [⟨[1, 2, 3, 4, 5, 6, 7, 8, 9, 10, 11, 12], 12⟩] 0 0 12 =
        some [1, 2, 3, 4, 5, 6, 7, 8, 9, 10, 11, 12]) ∧
    mapMutateOp [⟨[1, 2, 3, 4, 5, 6, 7, 8, 9, 10, 11, 12], 12⟩,
       ⟨[0, 0, 0, 0, 0, 0, 0, 0, 1, 2, 3, 4, 5, 6, 7, 8, 9, 10, 11, 12], 16⟩]
       ⟨1, 8⟩ 10 7 = none ∧
    mapReadOp [⟨[1, 2, 3, 4, 5, 6, 7, 8, 9, 10, 11, 12], 12⟩,
       ⟨[0, 0, 0, 0, 0, 0, 0, 0, 1, 2, 3, 4, 5, 6, 7, 8, 9, 10, 11, 12], 16⟩]
       ⟨1, 8⟩ 10 = some 11 ∧
    (mapBookkeepOp [⟨[1, 2, 3, 4, 5, 6, 7, 8, 9, 10, 11, 12], 12⟩,
       ⟨[0, 0, 0, 0, 0, 0, 0, 0, 1, 2, 3, 4, 5, 6, 7, 8, 9, 10, 11, 12], 16⟩]
       ⟨1, 8⟩ 2 7).isSome := by
  refine ⟨⟨by decide, by decide, rfl⟩, ?_, ?_, ?_⟩
  · exact (map_freeze_mutate_faults_reads_succeed
      [⟨[1, 2, 3, 4, 5, 6, 7, 8, 9, 10, 11, 12], 12⟩] ⟨0, 0⟩ 16 12 8
      [1, 2, 3, 4, 5, 6, 7, 8, 9, 10, 11, 12] (by decide) (by decide)
      rfl).1 10 7 (by decide) (by decide)
  · have := (map_freeze_mutate_faults_reads_succeed
      [⟨[1, 2, 3, 4, 5, 6, 7, 8, 9, 10, 11, 12], 12⟩] ⟨0, 0⟩ 16 12 8
      [1, 2, 3, 4, 5, 6, 7, 8, 9, 10, 11, 12] (by decide) (by decide)
      rfl).2.1 10 (by decide)
    exact this
  · exact (map_freeze_mutate_faults_reads_succeed
      [⟨[1, 2, 3, 4, 5, 6, 7, 8, 9, 10, 11, 12], 12⟩] ⟨0, 0⟩ 16 12 8
      [1, 2, 3, 4, 5, 6, 7, 8, 9, 10, 11, 12] (by decide) (by decide)
      rfl).2.2.1 2 7 (by decide)

/-- C7 counterexample: Map of an empty (non-nil) map is not a no-op.
With page size 16, hmap size 12 and count size 8, freezing an empty map
(hmap bytes all zero, its count field zero) allocates a fresh two-page
split region and returns a handle different from the input: the result is
not the unchanged input and the memory has grown by one region. -/
theorem map_empty_allocates_counterexample :
    MapB 16 12 8 [⟨[0, 0, 0, 0, 0, 0, 0, 0, 0, 0, 0, 0], 12⟩] (.bmapv ⟨0, 0⟩) =
      (.ok (.bmapv ⟨1, 8⟩),
       [⟨[0, 0, 0, 0, 0, 0, 0, 0, 0, 0, 0, 0], 12⟩,
        ⟨[0, 0, 0, 0, 0, 0, 0, 0, 0, 0, 0, 0, 0, 0, 0, 0, 0, 0, 0, 0], 16⟩]) ∧
    (BPtr.mk 1 8 ≠ BPtr.mk 0 0) ∧
    ([⟨[0, 0, 0, 0, 0, 0, 0, 0, 0, 0, 0, 0], 12⟩,
      ⟨[0, 0, 0, 0, 0, 0, 0, 0, 0, 0, 0, 0, 0, 0, 0, 0, 0, 0, 0, 0], 16⟩] :
        BMem).length =
      ([⟨[0, 0, 0, 0, 0, 0, 0, 0, 0, 0, 0, 0], 12⟩] : BMem).length + 1 := by
  refine ⟨rfl, by decide, by decide⟩

/-- C7 amended: the five genuine no-op paths: Pointer(nil), Slice(nil),
Slice of an empty slice, Map(nil) and Object(nil) return their input
unchanged and perform no allocation (the memory is returned exactly as it
was); Map of an empty non-nil map, by contrast, allocates like any other
map (see the counterexample). -/
theorem freeze_noop_paths (m : BMem) (ps sz off : Nat) (data : BPtr)
    (cap es fuel : Nat) (h : Heap) :
    PointerB m .bnil = (.ok .bnil, m) ∧
    SliceB m .bnil = (.ok .bnil, m) ∧
    SliceB m (.bslice data 0 cap es) = (.ok (.bslice data 0 cap es), m) ∧
    MapB ps sz off m .bnil = (.ok .bnil, m) ∧
    ObjectW fuel h .gnil = (.ok .gnil, h) := by
  refine ⟨rfl, rfl, ?_, rfl, rfl⟩
  simp [SliceB, copyAndFreezeB]

/-- C8: each entry point rejects a non-nil input of the wrong shape (any
non-pointer to Pointer, any non-slice to Slice, any non-map to Map, and
any root that is not a pointer, slice or map to Object) with a
synchronous panic raised before any allocation: the memory is returned
unchanged, and the panic is recoverable by the caller, unlike a
protection fault. -/
theorem wrong_shape_panics (m : BMem) (ps sz off len cap es n : Nat)
    (p : BPtr) (fuel : Nat) (h : Heap) (w : Val) (fts : List (Bool × Ty)) :
    PointerB m (.bslice p len cap es) =
      (.error (.panicMsg "Pointer called on non-pointer type"), m) ∧
    PointerB m (.bmapv p) =
      (.error (.panicMsg "Pointer called on non-pointer type"), m) ∧
    PointerB m .bother =
      (.error (.panicMsg "Pointer called on non-pointer type"), m) ∧
    SliceB m (.bptr p n) =
      (.error (.panicMsg "Slice called on non-slice type"), m) ∧
    SliceB m (.bmapv p) =
      (.error (.panicMsg "Slice called on non-slice type"), m) ∧
    SliceB m .bother =
      (.error (.panicMsg "Slice called on non-slice type"), m) ∧
    MapB ps sz off m (.bptr p n) =
      (.error (.panicMsg "Map called on non-map type"), m) ∧
    MapB ps sz off m (.bslice p len cap es) =
      (.error (.panicMsg "Map called on non-map type"), m) ∧
    MapB ps sz off m .bother =
      (.error (.panicMsg "Map called on non-map type"), m) ∧
    ObjectW fuel h (.gval (.tint n) w) =
      (.error (.panicMsg "Object called on invalid type"), h) ∧
    ObjectW fuel h (.gval (.tarr len (.tint n)) w) =
      (.error (.panicMsg "Object called on invalid type"), h) ∧
    ObjectW fuel h (.gval (.tstruct fts) w) =
      (.error (.panicMsg "Object called on invalid type"), h) ∧
    (Err.panicMsg "Object called on invalid type").recoverable = true ∧
    Err.fault.recoverable = false := by
  exact ⟨rfl, rfl, rfl, rfl, rfl, rfl, rfl, rfl, rfl, rfl, rfl, rfl, rfl, rfl⟩

theorem objFields_private_untouched
    (f : Ty → Val → Heap → Except Err (Val × Heap)) :
    ∀ (fts : List (Bool × Ty)) (vs : List Val) (h : Heap)
      (vs1 : List Val) (h1 : Heap),
      objFields f fts vs h = .ok (vs1, h1) →
      ∀ i ft, fts.get? i = some (false, ft) → vs1.get? i = vs.get? i := by
  intro fts
  induction fts with
  | nil =>
    intro vs h vs1 h1 hok i ft hi
    cases hi
  | cons hd tl ih =>
    intro vs h vs1 h1 hok i ft hi
    obtain ⟨ex, ft0⟩ := hd
    cases vs with
    | nil =>
      simp only [objFields] at hok
      cases hok
      rfl
    | cons fv vs' =>
      simp only [objFields] at hok
      by_cases hguard : (ex && hasPtrs ft0) = true
      · rw [if_pos hguard] at hok
        cases e1 : f ft0 fv h with
        | error e => rw [e1] at hok; cases hok
        | ok r1 =>
          obtain ⟨fv1, h2⟩ := r1
          rw [e1] at hok
          dsimp only at hok
          cases e2 : objFields f tl vs' h2 with
          | error e => rw [e2] at hok; cases hok
          | ok r2 =>
            obtain ⟨vs2, h3⟩ := r2
            rw [e2] at hok
            dsimp only at hok
            cases hok
            cases i with
            | zero =>
              simp only [List.get?] at hi
              cases hi
              simp_all
            | succ j =>
              simp only [List.get?] at hi ⊢
              exact ih vs' h2 vs2 _ e2 j ft hi
      · rw [if_neg hguard] at hok
        cases e2 : objFields f tl vs' h with
        | error e => rw [e2] at hok; cases hok
        | ok r2 =>
          obtain ⟨vs2, h3⟩ := r2
          rw [e2] at hok
          dsimp only at hok
          cases hok
          cases i with
          | zero => rfl
          | succ j =>
            simp only [List.get?] at hi ⊢
            exact ih vs' h vs2 _ e2 j ft hi

/-- C5: the walker leaves private (non-descendable) struct members
completely untouched: for every field list, a member whose visibility
flag is false keeps exactly its original value (first conjunct); and in
the concrete record with an exported pointer field f and a private
pointer field g, Object freezes f's pointee into a new read-only cell
(writing through the dereferenced f faults) while g still points to its
original cell, whose storage is unchanged and still writable (writing
through the dereferenced g succeeds). -/
theorem object_private_fields_untouched (x y : Nat) :
    (∀ (n : Nat) (fts : List (Bool × Ty)) (vs : List Val) (h : Heap)
       (vs1 : List Val) (h1 : Heap),
       objFields (objectF n) fts vs h = .ok (vs1, h1) →
       ∀ i ft, fts.get? i = some (false, ft) → vs1.get? i = vs.get? i) ∧
    ObjectW 9 [⟨.scalar x, .rw⟩, ⟨.scalar y, .rw⟩,
        ⟨.vstruct [.vptr (some 0), .vptr (some 1)], .rw⟩]
      (.gval
        (.tptr (.tstruct [(true, .tptr (.tint 8)), (false, .tptr (.tint 8))]))
        (.vptr (some 2))) =
      (.ok (.gval
        (.tptr (.tstruct [(true, .tptr (.tint 8)), (false, .tptr (.tint 8))]))
        (.vptr (some 4))),
       [⟨.scalar x, .rw⟩, ⟨.scalar y, .rw⟩,
        ⟨.vstruct [.vptr (some 3), .vptr (some 1)], .rw⟩,
        ⟨.scalar x, .ro⟩,
        ⟨.vstruct [.vptr (some 3), .vptr (some 1)], .ro⟩]) ∧
    (∀ w, Heap.write
        [⟨.scalar x, .rw⟩, ⟨.scalar y, .rw⟩,
         ⟨.vstruct [.vptr (some 3), .vptr (some 1)], .rw⟩,
         ⟨.scalar x, .ro⟩,
         ⟨.vstruct [.vptr (some 3), .vptr (some 1)], .ro⟩] 3 w =
      .error .fault) ∧
    (∀ w, Heap.write
        [⟨.scalar x, .rw⟩, ⟨.scalar y, .rw⟩,
         ⟨.vstruct [.vptr (some 3), .vptr (some 1)], .rw⟩,
         ⟨.scalar x, .ro⟩,
         ⟨.vstruct [.vptr (some 3), .vptr (some 1)], .ro⟩] 1 w =
      .ok [⟨.scalar x, .rw⟩, ⟨w, .rw⟩,
           ⟨.vstruct [.vptr (some 3), .vptr (some 1)], .rw⟩,
           ⟨.scalar x, .ro⟩,
           ⟨.vstruct [.vptr (some 3), .vptr (some 1)], .ro⟩]) ∧
    List.get? ([⟨.scalar x, .rw⟩, ⟨.scalar y, .rw⟩,
         ⟨.vstruct [.vptr (some 3), .vptr (some 1)], .rw⟩,
         ⟨.scalar x, .ro⟩,
         ⟨.vstruct [.vptr (some 3), .vptr (some 1)], .ro⟩] : Heap) 1 =
      some ⟨.scalar y, .rw⟩ := by
  refine ⟨fun n => objFields_private_untouched (objectF n), rfl, ?_, ?_, rfl⟩
  · intro w; rfl
  · intro w; rfl

/-- Closed witness for C5, applying it at concrete scalar values and a
one-field private struct. -/
theorem object_private_fields_untouched_witness :
    (objFields (objectF 1) [(false, .tint 8)] [.scalar 7] [] =
        .ok ([.scalar 7], []) ∧
      List.get? [(false, (Ty.tint 8))] 0 = some (false, .tint 8)) ∧
    List.get? [Val.scalar 7] 0 = List.get? [Val.scalar 7] 0 := by
  refine ⟨⟨rfl, rfl⟩, ?_⟩
  exact (object_private_fields_untouched 3 4).1 1 [(false, .tint 8)]
    [.scalar 7] [] [.scalar 7] [] rfl 0 (.tint 8) rfl

/-- C6 counterexample: Object applied to its own previous output does not
fault on a pointer to a scalar.  Freezing a pointer to the scalar 3
yields a handle into read-only cell 1; applying Object to that handle
succeeds (it copies the frozen pointee into a fresh read-only cell and
returns a new handle) instead of faulting, because the walker skips the
write-back for scalar pointees. -/
theorem object_twice_scalar_no_fault_counterexample :
    ObjectW 9 [⟨.scalar 3, .rw⟩] (.gval (.tptr (.tint 8)) (.vptr (some 0))) =
      (.ok (.gval (.tptr (.tint 8)) (.vptr (some 1))),
       [⟨.scalar 3, .rw⟩, ⟨.scalar 3, .ro⟩]) ∧
    ObjectW 9 [⟨.scalar 3, .rw⟩, ⟨.scalar 3, .ro⟩]
        (.gval (.tptr (.tint 8)) (.vptr (some 1))) =
      (.ok (.gval (.tptr (.tint 8)) (.vptr (some 2))),
       [⟨.scalar 3, .rw⟩, ⟨.scalar 3, .ro⟩, ⟨.scalar 3, .ro⟩]) := ⟨rfl, rfl⟩

/-- C6 amended: double freeze faults exactly when the second walk must
write back through an already-frozen pointer, i.e. when the pointee's
type can itself contain pointers: freezing a pointer to a pointer twice
faults on the second application (an unrecoverable protection violation),
while a pointer to a scalar is silently re-frozen (see the
counterexample). -/
theorem object_twice_ptr_faults :
    ObjectW 9 [⟨.scalar 5, .rw⟩, ⟨.vptr (some 0), .rw⟩]
        (.gval (.tptr (.tptr (.tint 8))) (.vptr (some 1))) =
      (.ok (.gval (.tptr (.tptr (.tint 8))) (.vptr (some 3))),
       [⟨.scalar 5, .rw⟩, ⟨.vptr (some 2), .rw⟩, ⟨.scalar 5, .ro⟩,
        ⟨.vptr (some 2), .ro⟩]) ∧
    ObjectW 9 [⟨.scalar 5, .rw⟩, ⟨.vptr (some 2), .rw⟩, ⟨.scalar 5, .ro⟩,
        ⟨.vptr (some 2), .ro⟩]
        (.gval (.tptr (.tptr (.tint 8))) (.vptr (some 3))) =
      (.error .fault,
       [⟨.scalar 5, .rw⟩, ⟨.vptr (some 2), .rw⟩, ⟨.scalar 5, .ro⟩,
        ⟨.vptr (some 2), .ro⟩]) ∧
    Err.fault.recoverable = false := ⟨rfl, rfl, rfl⟩

theorem hasPtrs_eq_false {t : Ty} (hf : hasPtrs t = false) :
    ∃ sz, t = .tint sz := by
  cases t with
  | tint sz => exact ⟨sz, rfl⟩
  | tptr te => simp [hasPtrs] at hf
  | tarr k te => simp [hasPtrs] at hf
  | tslice te => simp [hasPtrs] at hf
  | tmap tk te => simp [hasPtrs] at hf
  | tstruct fts => simp [hasPtrs] at hf

theorem objectNaive_tint_id (n sz : Nat) (v : Val) (h : Heap) :
    ∀ r, objectNaive n (.tint sz) v h = .ok r → r = (v, h) := by
  cases n with
  | zero => intro r hr; simp only [objectNaive] at hr; cases hr
  | succ k =>
    intro r hr
    simp only [objectNaive] at hr
    cases hr
    rfl

theorem write_read_self (h : Heap) (a : Nat) (v : Val) (h2 : Heap)
    (hr : h.read a = .ok v) (hw : h.write a v = .ok h2) : h2 = h := by
  simp only [Heap.read] at hr
  simp only [Heap.write] at hw
  cases e : h.get? a with
  | none => rw [e] at hr; cases hr
  | some c =>
    rw [e] at hr hw
    dsimp only at hr hw
    cases hr
    cases hperm : c.perm with
    | ro => rw [hperm] at hw; cases hw
    | rw =>
      rw [hperm] at hw
      dsimp only at hw
      cases hw
      have hc : c = ⟨c.val, .rw⟩ := by
        cases c
        simp_all
      rw [← hc]
      exact set_get_self h a c e

theorem objList_id (f : Ty → Val → Heap → Except Err (Val × Heap)) (te : Ty)
    (hid : ∀ v h r, f te v h = .ok r → r = (v, h)) :
    ∀ (vs : List Val) (h : Heap) (r : List Val × Heap),
      objList f te vs h = .ok r → r = (vs, h) := by
  intro vs
  induction vs with
  | nil =>
    intro h r hr
    simp only [objList] at hr
    cases hr
    rfl
  | cons v vs ih =>
    intro h r hr
    simp only [objList] at hr
    cases e1 : f te v h with
    | error e => rw [e1] at hr; cases hr
    | ok p =>
      obtain ⟨v1, h1⟩ := p
      rw [e1] at hr
      dsimp only at hr
      cases e2 : objList f te vs h1 with
      | error e => rw [e2] at hr; cases hr
      | ok q =>
        obtain ⟨vs1, h3⟩ := q
        rw [e2] at hr
        dsimp only at hr
        cases hr
        have hq := ih h1 (vs1, h3) e2
        have hid1 := hid v h (v1, h1) e1
        cases hid1
        cases hq
        rfl

theorem objList_mono (f g : Ty → Val → Heap → Except Err (Val × Heap))
    (hfg : ∀ t v h r, f t v h = .ok r → g t v h = .ok r) :
    ∀ (te : Ty) (vs : List Val) (h : Heap) (r : List Val × Heap),
      objList f te vs h = .ok r → objList g te vs h = .ok r := by
  intro te vs
  induction vs with
  | nil => intro h r hr; exact hr
  | cons v vs ih =>
    intro h r hr
    simp only [objList] at hr ⊢
    cases e1 : f te v h with
    | error e => rw [e1] at hr; cases hr
    | ok p =>
      obtain ⟨v1, h1⟩ := p
      rw [e1] at hr
      dsimp only at hr
      cases e2 : objList f te vs h1 with
      | error e => rw [e2] at hr; cases hr
      | ok q =>
        obtain ⟨vs1, h2⟩ := q
        rw [e2] at hr
        dsimp only at hr
        rw [hfg te v h (v1, h1) e1]
        dsimp only
        rw [ih h1 (vs1, h2) e2]
        dsimp only
        exact hr

theorem objPairs_mono (f g : Ty → Val → Heap → Except Err (Val × Heap))
    (hfg : ∀ t v h r, f t v h = .ok r → g t v h = .ok r) :
    ∀ (tk te : Ty) (ps : List (Val × Val)) (h : Heap)
      (r : List (Val × Val) × Heap),
      objPairs f tk te ps h = .ok r → objPairs g tk te ps h = .ok r := by
  intro tk te ps
  induction ps with
  | nil => intro h r hr; exact hr
  | cons p ps ih =>
    intro h r hr
    obtain ⟨k, v⟩ := p
    simp only [objPairs] at hr ⊢
    cases e1 : f tk k h with
    | error e => rw [e1] at hr; cases hr
    | ok p1 =>
      obtain ⟨k1, h1⟩ := p1
      rw [e1] at hr
      dsimp only at hr
      cases e2 : f te v h1 with
      | error e => rw [e2] at hr; cases hr
      | ok p2 =>
        obtain ⟨v1, h2⟩ := p2
        rw [e2] at hr
        dsimp only at hr
        cases e3 : objPairs f tk te ps h2 with
        | error e => rw [e3] at hr; cases hr
        | ok q =>
          obtain ⟨ps1, h3⟩ := q
          rw [e3] at hr
          dsimp only at hr
          rw [hfg tk k h (k1, h1) e1]
          dsimp only
          rw [hfg te v h1 (v1, h2) e2]
          dsimp only
          rw [ih h2 (ps1, h3) e3]
          dsimp only
          exact hr

theorem objFields_naive_mono (f g : Ty → Val → Heap → Except Err (Val × Heap))
    (hfg : ∀ t v h r, f t v h = .ok r → g t v h = .ok r)
    (hid : ∀ sz v h r, f (.tint sz) v h = .ok r → r = (v, h)) :
    ∀ (fts : List (Bool × Ty)) (vs : List Val) (h : Heap)
      (r : List Val × Heap),
      objFieldsNaive f fts vs h = .ok r → objFields g fts vs h = .ok r := by
  intro fts
  induction fts with
  | nil =>
    intro vs h r hr
    cases vs with
    | nil => exact hr
    | cons fv vs => exact hr
  | cons hd tl ih =>
    intro vs h r hr
    obtain ⟨ex, ft⟩ := hd
    cases vs with
    | nil => exact hr
    | cons fv vs =>
      simp only [objFieldsNaive] at hr
      simp only [objFields]
      by_cases hex : ex = true
      · rw [if_pos hex] at hr
        cases e1 : f ft fv h with
        | error e => rw [e1] at hr; cases hr
        | ok p1 =>
          obtain ⟨fv1, h1⟩ := p1
          rw [e1] at hr
          dsimp only at hr
          cases e2 : objFieldsNaive f tl vs h1 with
          | error e => rw [e2] at hr; cases hr
          | ok q =>
            obtain ⟨vs1, h2⟩ := q
            rw [e2] at hr
            dsimp only at hr
            by_cases hhp : hasPtrs ft = true
            · rw [if_pos (by simp [hex, hhp])]
              rw [hfg ft fv h (fv1, h1) e1]
              dsimp only
              rw [ih vs h1 (vs1, h2) e2]
              exact hr
            · have hf : hasPtrs ft = false := by
                cases hft : hasPtrs ft
                · rfl
                · exact absurd hft hhp
              obtain ⟨sz, hsz⟩ := hasPtrs_eq_false hf
              subst hsz
              have hfh := hid sz fv h (fv1, h1) e1
              have hfv1 : fv1 = fv := congrArg Prod.fst hfh
              have hh1 : h1 = h := congrArg Prod.snd hfh
              rw [hfv1] at hr
              rw [hh1] at e2
              rw [if_neg (by simp [hasPtrs])]
              rw [ih vs h (vs1, h2) e2]
              exact hr
      · rw [if_neg hex] at hr
        cases e2 : objFieldsNaive f tl vs h with
        | error e => rw [e2] at hr; cases hr
        | ok q =>
          obtain ⟨vs1, h2⟩ := q
          rw [e2] at hr
          dsimp only at hr
          rw [if_neg (by simp [hex])]
          rw [ih vs h (vs1, h2) e2]
          exact hr

/-- C9: the hasPtrs guard of the walker is a pure optimization: whenever
the naive walker that always recurses into pointees, array and slice
elements, and visible struct fields succeeds on an input, the source's
guarded walker succeeds on the same input with exactly the same result:
the same frozen value and the same heap, region contents included.  (On a
previously frozen input the naive walker's extra write-backs fault, so
its success in particular captures the not-previously-frozen premise.) -/
theorem object_hasPtrs_guard_pure_optimization :
    ∀ (n : Nat) (t : Ty) (v : Val) (h : Heap) (r : Val × Heap),
      objectNaive n t v h = .ok r → objectF n t v h = .ok r := by
  intro n
  induction n with
  | zero =>
    intro t v h r hnv
    exact Except.noConfusion hnv
  | succ n ih =>
    intro t v h r hnv
    cases t with
    | tint sz =>
      simp only [objectNaive] at hnv
      simp only [objectF]
      exact hnv
    | tptr te =>
      cases v with
      | scalar s => exact Except.noConfusion hnv
      | varr vs => exact Except.noConfusion hnv
      | vslice d len cap => exact Except.noConfusion hnv
      | vmap ma => exact Except.noConfusion hnv
      | vstruct vs => exact Except.noConfusion hnv
      | ventries es => exact Except.noConfusion hnv
      | vptr ma =>
        cases ma with
        | none =>
          simp only [objectNaive] at hnv
          simp only [objectF]
          exact hnv
        | some a =>
          simp only [objectNaive] at hnv
          simp only [objectF]
          cases e1 : h.read a with
          | error e => rw [e1] at hnv; cases hnv
          | ok pv =>
            rw [e1] at hnv
            dsimp only at hnv
            cases e2 : objectNaive n te pv h with
            | error e => rw [e2] at hnv; cases hnv
            | ok p1 =>
              obtain ⟨pv1, h1⟩ := p1
              rw [e2] at hnv
              dsimp only at hnv
              cases e3 : h1.write a pv1 with
              | error e => rw [e3] at hnv; cases hnv
              | ok h2 =>
                rw [e3] at hnv
                dsimp only at hnv
                by_cases hhp : hasPtrs te = true
                · rw [if_pos hhp]
                  dsimp only
                  rw [ih te pv h (pv1, h1) e2]
                  dsimp only
                  rw [e3]
                  dsimp only
                  exact hnv
                · have hf : hasPtrs te = false := Bool.eq_false_iff.mpr hhp
                  obtain ⟨sz, hsz⟩ := hasPtrs_eq_false hf
                  subst hsz
                  have hidr := objectNaive_tint_id n sz pv h (pv1, h1) e2
                  have hpv1 : pv1 = pv := congrArg Prod.fst hidr
                  have hh1 : h1 = h := congrArg Prod.snd hidr
                  rw [hpv1, hh1] at e3
                  have hh2 : h2 = h := write_read_self h a pv h2 e1 e3
                  rw [if_neg hhp]
                  rw [hh2] at hnv
                  exact hnv
    | tarr k te =>
      cases v with
      | scalar s => exact Except.noConfusion hnv
      | vptr ma => exact Except.noConfusion hnv
      | vslice d len cap => exact Except.noConfusion hnv
      | vmap ma => exact Except.noConfusion hnv
      | vstruct vs => exact Except.noConfusion hnv
      | ventries es => exact Except.noConfusion hnv
      | varr vs =>
        simp only [objectNaive] at hnv
        simp only [objectF]
        cases e1 : objList (objectNaive n) te vs h with
        | error e => rw [e1] at hnv; cases hnv
        | ok q =>
          obtain ⟨vs1, h1⟩ := q
          rw [e1] at hnv
          dsimp only at hnv
          by_cases hhp : hasPtrs te = true
          · rw [if_pos hhp]
            rw [objList_mono (objectNaive n) (objectF n) ih te vs h (vs1, h1) e1]
            dsimp only
            exact hnv
          · have hf : hasPtrs te = false := Bool.eq_false_iff.mpr hhp
            obtain ⟨sz, hsz⟩ := hasPtrs_eq_false hf
            subst hsz
            have hidl := objList_id (objectNaive n) (.tint sz)
              (fun v h r => objectNaive_tint_id n sz v h r) vs h (vs1, h1) e1
            have hvs1 : vs1 = vs := congrArg Prod.fst hidl
            have hh1 : h1 = h := congrArg Prod.snd hidl
            rw [if_neg hhp]
            rw [hvs1, hh1] at hnv
            exact hnv
    | tslice te =>
      cases v with
      | scalar s => exact Except.noConfusion hnv
      | vptr ma => exact Except.noConfusion hnv
      | varr vs => exact Except.noConfusion hnv
      | vmap ma => exact Except.noConfusion hnv
      | vstruct vs => exact Except.noConfusion hnv
      | ventries es => exact Except.noConfusion hnv
      | vslice d len cap =>
        cases d with
        | none =>
          simp only [objectNaive] at hnv
          simp only [objectF]
          by_cases hlen : (len != 0) = true
          · rw [if_pos hlen] at hnv
            cases hnv
          · rw [if_neg hlen] at hnv
            have hl : (len != 0) = false := Bool.eq_false_iff.mpr hlen
            rw [if_neg (by simp [hl])]
            exact hnv
        | some a =>
          simp only [objectNaive] at hnv
          simp only [objectF]
          by_cases hlen : (len != 0) = true
          · rw [if_pos hlen] at hnv
            cases e1 : h.read a with
            | error e => rw [e1] at hnv; cases hnv
            | ok bv =>
              rw [e1] at hnv
              cases bv with
              | scalar s => cases hnv
              | vptr ma2 => cases hnv
              | vslice d2 l2 c2 => cases hnv
              | vmap ma2 => cases hnv
              | vstruct vs2 => cases hnv
              | ventries es2 => cases hnv
              | varr es =>
                dsimp only at hnv
                cases e2 : objList (objectNaive n) te (es.take len) h with
                | error e => rw [e2] at hnv; cases hnv
                | ok q =>
                  obtain ⟨es1, h1⟩ := q
                  rw [e2] at hnv
                  dsimp only at hnv
                  cases e3 : h1.write a (.varr (es1 ++ es.drop len)) with
                  | error e => rw [e3] at hnv; cases hnv
                  | ok h2 =>
                    rw [e3] at hnv
                    dsimp only at hnv
                    by_cases hhp : hasPtrs te = true
                    · rw [if_pos (by simp [hhp, hlen])]
                      dsimp only
                      rw [objList_mono (objectNaive n) (objectF n) ih te
                        (es.take len) h (es1, h1) e2]
                      dsimp only
                      rw [e3]
                      dsimp only
                      exact hnv
                    · have hf : hasPtrs te = false := Bool.eq_false_iff.mpr hhp
                      obtain ⟨sz, hsz⟩ := hasPtrs_eq_false hf
                      subst hsz
                      have hidl := objList_id (objectNaive n) (.tint sz)
                        (fun v h r => objectNaive_tint_id n sz v h r)
                        (es.take len) h (es1, h1) e2
                      have hes1 : es1 = es.take len := congrArg Prod.fst hidl
                      have hh1 : h1 = h := congrArg Prod.snd hidl
                      rw [hes1, hh1, List.take_append_drop] at e3
                      have hh2 : h2 = h := write_read_self h a (.varr es) h2 e1 e3
                      rw [if_neg (by simp [hasPtrs])]
                      rw [hh2] at hnv
                      exact hnv
          · rw [if_neg hlen] at hnv
            have hl : (len != 0) = false := Bool.eq_false_iff.mpr hlen
            rw [if_neg (by simp [hl])]
            exact hnv
    | tmap tk te =>
      cases v with
      | scalar s => exact Except.noConfusion hnv
      | vptr ma => exact Except.noConfusion hnv
      | varr vs => exact Except.noConfusion hnv
      | vslice d len cap => exact Except.noConfusion hnv
      | vstruct vs => exact Except.noConfusion hnv
      | ventries es => exact Except.noConfusion hnv
      | vmap ma =>
        simp only [objectNaive] at hnv
        simp only [objectF]
        by_cases hg : (hasPtrs te || hasPtrs tk) = true
        · rw [if_pos hg] at hnv
          rw [if_pos hg]
          cases e1 : readEntries h ma with
          | error e => rw [e1] at hnv; cases hnv
          | ok es =>
            rw [e1] at hnv
            dsimp only at hnv ⊢
            cases e2 : objPairs (objectNaive n) tk te es h with
            | error e => rw [e2] at hnv; cases hnv
            | ok q =>
              obtain ⟨es1, h1⟩ := q
              rw [e2] at hnv
              dsimp only at hnv
              rw [objPairs_mono (objectNaive n) (objectF n) ih tk te es h
                (es1, h1) e2]
              dsimp only
              exact hnv
        · rw [if_neg hg] at hnv
          rw [if_neg hg]
          exact hnv
    | tstruct fts =>
      cases v with
      | scalar s => exact Except.noConfusion hnv
      | vptr ma => exact Except.noConfusion hnv
      | varr vs => exact Except.noConfusion hnv
      | vslice d len cap => exact Except.noConfusion hnv
      | vmap ma => exact Except.noConfusion hnv
      | ventries es => exact Except.noConfusion hnv
      | vstruct vs =>
        simp only [objectNaive] at hnv
        simp only [objectF]
        cases e1 : objFieldsNaive (objectNaive n) fts vs h with
        | error e => rw [e1] at hnv; cases hnv
        | ok q =>
          obtain ⟨vs1, h1⟩ := q
          rw [e1] at hnv
          dsimp only at hnv
          rw [objFields_naive_mono (objectNaive n) (objectF n) ih
            (fun sz v h r => objectNaive_tint_id n sz v h r) fts vs h
            (vs1, h1) e1]
          dsimp only
          exact hnv

/-- Closed witness for C9: the naive walker and the guarded walker agree
on a pointer to a scalar in a writable heap. -/
theorem object_hasPtrs_guard_pure_optimization_witness :
    objectNaive 3 (.tptr (.tint 8)) (.vptr (some 0)) [⟨.scalar 3, .rw⟩] =
      .ok (.vptr (some 1), [⟨.scalar 3, .rw⟩, ⟨.scalar 3, .ro⟩]) ∧
    objectF 3 (.tptr (.tint 8)) (.vptr (some 0)) [⟨.scalar 3, .rw⟩] =
      .ok (.vptr (some 1), [⟨.scalar 3, .rw⟩, ⟨.scalar 3, .ro⟩]) := by
  refine ⟨rfl, ?_⟩
  exact object_hasPtrs_guard_pure_optimization 3 (.tptr (.tint 8))
    (.vptr (some 0)) [⟨.scalar 3, .rw⟩]
    (.vptr (some 1), [⟨.scalar 3, .rw⟩, ⟨.scalar 3, .ro⟩]) rfl

end Freeze
